import Mathlib

/-!
# Verification of the yt-words segment playback scheduler

Shallow embedding of the scheduler core of the `yt-words` repository:

* `makeSegments`, `playSequenceFrom`, `toggleKnownByStart` from `src/src/App.tsx`;
* `playSegmentAt`, `stopAll` from the MVP variant (the unnamed source files),
  embedded in the `Mvp` namespace.

Times are modelled as rationals (the source uses JS numbers; every claim is
about order/arithmetic, not floating-point rounding).  Timer scheduling
(`setInterval` / `clearInterval`) is modelled by an explicit table of armed
interval timers carrying the values their callbacks captured by closure;
firing a timer id that is not in the table is a no-op, which is exactly the
HTML timer semantics that a cleared interval never runs again.
-/

/-- Marker row (`interface WordRow` in `App.tsx`): start second `t`, headword
`word` (may be empty), mastery `level` (`0` = unknown, `1` = known). -/
structure WordRow where
  t : ℚ
  word : String
  level : Nat
deriving DecidableEq

/-- Derived playable window (`interface Segment` in `App.tsx`). -/
structure Segment where
  start : ℚ
  «end» : ℚ
  word : String
  level : Nat
deriving DecidableEq

/-- The stable ascending-by-`t` sort performed by
`[...words].sort((a, b) => a.t - b.t)` (JS `Array.prototype.sort` is stable,
so the model uses a stable merge sort with `a.t ≤ b.t`). -/
def sortedByT (words : List WordRow) : List WordRow :=
  words.mergeSort (fun a b => decide (a.t ≤ b.t))

/-- The builder `makeSegments` from `App.tsx` (lines 191-204): empty input gives `[]`;
otherwise each sorted marker `i` becomes one segment with `start = t_i` and
`end = max start (t_{i+1} - 0.05)` when a next marker exists (the
`Number.isFinite(nextStart)` test, modelled by the `some`/`none` match on
`sorted[i+1]?`), or `end = start + max 0.3 windowSec` for the last marker.
`EPS = 0.05 = 1/20`, the minimum fallback length is `0.3 = 3/10`. -/
def makeSegments (words : List WordRow) (windowSec : ℚ) : List Segment :=
  if words.isEmpty then []
  else
    (sortedByT words).enum.map (fun p =>
      match (sortedByT words)[p.1 + 1]? with
      | some next =>
          { start := p.2.t, «end» := max p.2.t (next.t - 1/20),
            word := p.2.word, level := p.2.level }
      | none =>
          { start := p.2.t, «end» := p.2.t + max (3/10) windowSec,
            word := p.2.word, level := p.2.level })

/-- Commands issued to the external YouTube player handle. -/
inductive Cmd where
  | setRate (r : ℚ)
  | seekTo (t : ℚ)
  | playVideo
  | pauseVideo
deriving DecidableEq

/-- An armed `setInterval` poll timer of `playSequenceFrom` in `App.tsx`,
together with the values its callback captured by closure: the render-time
`visibleSegments` list, the position `index` being played, and
`seg = visibleSegments[index]` of that render. -/
structure AppTimer where
  id : Nat
  visible : List Segment
  index : Int
  seg : Segment
deriving DecidableEq

/-- The mutable state of the `App.tsx` component that the scheduler touches:
the live `words` React state, the `unknownOnly` toggle, `windowSec`, the
`currentRef` and `pollingRef` refs, the host's armed-interval table, a fresh
handle counter for `setInterval`, and whether `playerRef.current` is a valid
player handle. -/
structure AppState where
  words : List WordRow
  unknownOnly : Bool
  windowSec : ℚ
  current : Option Int
  pollingRef : Option Nat
  timers : List AppTimer
  nextId : Nat
  player : Bool
deriving DecidableEq

/-- The view `visibleSegments` (`App.tsx` lines 396-399): segments filtered by the
`unknownOnly` toggle, recomputed from the live `words`. -/
def visibleSegments (s : AppState) : List Segment :=
  if s.unknownOnly then
    (makeSegments s.words s.windowSec).filter (fun sg => sg.level == 0)
  else makeSegments s.words s.windowSec

/-- Model of `clearInterval(h)` for the `App.tsx` timer table: removes the armed
interval `h`; no-op on `null` or an already-cleared handle. -/
def clearIntervalApp (h : Option Nat) (timers : List AppTimer) : List AppTimer :=
  match h with
  | none => timers
  | some hid => timers.filter (fun tm => tm.id != hid)

/-- The scheduler entry `playSequenceFrom` (`App.tsx` lines 402-423).  `visible` is the
`visibleSegments` value the invoking closure captured: a UI click passes the
current render's list, while the poll callback passes the list captured when
its sequence started.  Returns the new state and the player commands issued
(`setPlaybackRate(1)`, `seekTo(seg.start)`, `playVideo`). -/
def playSequenceFrom (visible : List Segment) (index : Int) (s : AppState) :
    AppState × List Cmd :=
  if ¬ s.player ∨ index < 0 ∨ (visible.length : Int) ≤ index then (s, [])
  else
    match visible[index.toNat]? with
    | none => (s, [])
    | some seg =>
        ({ s with
            current := some index,
            timers := clearIntervalApp s.pollingRef s.timers
              ++ [{ id := s.nextId, visible := visible, index := index, seg := seg }],
            pollingRef := some s.nextId,
            nextId := s.nextId + 1 },
         [Cmd.setRate 1, Cmd.seekTo seg.start, Cmd.playVideo])

/-- One firing of the host for interval handle `tid` at player position `t`.
A handle no longer armed never runs (`clearInterval` semantics).  The callback
body is `App.tsx` lines 412-422: return if `currentRef` is null; read
`t = playerRef.current?.getCurrentTime?.() ?? 0`; if `t ≥ seg.end - END_EPS`
(`END_EPS = 0.01 = 1/100`) clear the interval and recurse into
`playSequenceFrom(index + 1)` with the captured list; otherwise do nothing. -/
def appFire (tid : Nat) (t : ℚ) (s : AppState) : AppState × List Cmd :=
  match s.timers.find? (fun tm => tm.id == tid) with
  | none => (s, [])
  | some tm =>
    match s.current with
    | none => (s, [])
    | some _ =>
      if tm.seg.«end» - 1/100 ≤ (if s.player then t else 0) then
        playSequenceFrom tm.visible (tm.index + 1)
          { s with timers := clearIntervalApp s.pollingRef s.timers,
                   pollingRef := none }
      else (s, [])

/-- The `setWords` updater of `toggleKnownByStart` (`App.tsx` lines 426-432):
`prev.map(w => w.t === start ? { ...w, level: w.level ? 0 : 1 } : w)`. -/
def toggleKnownByStartWords (start : ℚ) (prev : List WordRow) : List WordRow :=
  prev.map (fun w =>
    if w.t = start then { w with level := if w.level ≠ 0 then 0 else 1 } else w)

/-- The toggle `toggleKnownByStart` applied to the component state: only `words` changes. -/
def toggleKnownByStart (start : ℚ) (s : AppState) : AppState :=
  { s with words := toggleKnownByStartWords start s.words }

namespace Mvp

/-- Segment of the MVP variant (`interface Segment` of the unnamed files):
no `level` field; mastery is tracked per word in `knownWords`. -/
structure Segment where
  word : String
  start : ℚ
  «end» : ℚ
deriving DecidableEq

/-- An armed poll interval of `playSegmentAt` with its closure captures. -/
structure Timer where
  id : Nat
  index : Int
  seg : Segment
deriving DecidableEq

/-- The React state `playSegmentAt` reads through its closure at call time:
`segments`, `selectedWords`, `loops`, `autoAdvance`, `rate`, and whether
`playerRef.current` is non-null. -/
structure Env where
  segments : List Segment
  selectedWords : List String
  loops : Nat
  autoAdvance : Bool
  rate : ℚ
  player : Bool
deriving DecidableEq

/-- The ref `currentRef.current`: `{ idx, loop }` or null. -/
structure Current where
  idx : Int
  loop : Nat
deriving DecidableEq

/-- The ref cells and the host's armed-interval table of the MVP variant. -/
structure MState where
  current : Option Current
  pollingRef : Option Nat
  timers : List Timer
  nextId : Nat
deriving DecidableEq

/-- Model of `clearInterval(h)` for the MVP timer table. -/
def clearInterval (h : Option Nat) (timers : List Timer) : List Timer :=
  match h with
  | none => timers
  | some hid => timers.filter (fun tm => tm.id != hid)

/-- The state before anything was scheduled. -/
def init : MState :=
  { current := none, pollingRef := none, timers := [], nextId := 0 }

/-- The controller `playSegmentAt` (unnamed part_001 lines 206-235, identical in part_000):
guard player/handle and range, resolve `selectedWords[index]` to a segment by
word, set `currentRef = { idx, loop: 0 }`, issue `setPlaybackRate(rate)`,
`seekTo(seg.start)`, `playVideo`, clear any previous poll interval and arm a
new one capturing `index` and `seg`. -/
def playSegmentAt (env : Env) (index : Int) (s : MState) : MState × List Cmd :=
  if ¬ env.player ∨ index < 0 ∨ (env.selectedWords.length : Int) ≤ index then
    (s, [])
  else
    match env.selectedWords[index.toNat]? with
    | none => (s, [])
    | some word =>
      match env.segments.find? (fun sg => sg.word == word) with
      | none => (s, [])
      | some seg =>
          ({ current := some { idx := index, loop := 0 },
             pollingRef := some s.nextId,
             timers := clearInterval s.pollingRef s.timers
               ++ [{ id := s.nextId, index := index, seg := seg }],
             nextId := s.nextId + 1 },
           [Cmd.setRate env.rate, Cmd.seekTo seg.start, Cmd.playVideo])

/-- The stop operation `stopAll` (part_001 lines 237-242): clear the interval, null both refs,
and `playerRef.current?.pauseVideo?.()` (a pause only when a player exists). -/
def stopAll (env : Env) (s : MState) : MState × List Cmd :=
  ({ current := none, pollingRef := none,
     timers := clearInterval s.pollingRef s.timers, nextId := s.nextId },
   if env.player then [Cmd.pauseVideo] else [])

/-- The poll callback body (part_001 lines 216-234) of the armed timer `tm`
at player position `t`: return if `currentRef` is null; read
`t = playerRef.current?.getCurrentTime?.() ?? 0`; if `t ≥ seg.end` increment
`cur.loop`; below the loop budget re-issue `seekTo(seg.start)` + `playVideo`;
otherwise clear the interval and either recurse into
`playSegmentAt(index + 1)` (auto-advance) or `pauseVideo`. -/
def tickBody (env : Env) (tm : Timer) (t : ℚ) (s : MState) : MState × List Cmd :=
  match s.current with
  | none => (s, [])
  | some cur =>
    if tm.seg.«end» ≤ (if env.player then t else 0) then
      if cur.loop + 1 < env.loops then
        ({ s with current := some { cur with loop := cur.loop + 1 } },
         [Cmd.seekTo tm.seg.start, Cmd.playVideo])
      else
        let s1 : MState :=
          { s with
              current := some { cur with loop := cur.loop + 1 },
              timers := clearInterval s.pollingRef s.timers,
              pollingRef := none }
        if env.autoAdvance then playSegmentAt env (tm.index + 1) s1
        else (s1, [Cmd.pauseVideo])
    else (s, [])

/-- Host firing of interval handle `tid` at player position `t`: a handle that
is not in the armed table never runs. -/
def fire (env : Env) (tid : Nat) (t : ℚ) (s : MState) : MState × List Cmd :=
  match s.timers.find? (fun tm => tm.id == tid) with
  | none => (s, [])
  | some tm => tickBody env tm t s

/-- Runs `k` consecutive firings of handle `tid`, all at player position `t`. -/
def fireTicks (env : Env) (tid : Nat) (t : ℚ) : Nat → MState → MState × List Cmd
  | 0, s => (s, [])
  | k + 1, s =>
    let r1 := fire env tid t s
    let r2 := fireTicks env tid t k r1.1
    (r2.1, r1.2 ++ r2.2)

/-- Scheduler states reachable from `init` by plays, stops and timer firings.
Each step takes an arbitrary environment, since the React state captured by
the closures may change between renders. -/
inductive Reach : MState → Prop where
  | init : Reach init
  | play (env : Env) (index : Int) {s : MState} :
      Reach s → Reach (playSegmentAt env index s).1
  | stop (env : Env) {s : MState} : Reach s → Reach (stopAll env s).1
  | fire (env : Env) (tid : Nat) (t : ℚ) {s : MState} :
      Reach s → Reach (fire env tid t s).1

/-- Well-formedness of the timer table: ids are below the fresh counter, and
either nothing is armed or exactly the interval `pollingRef` points to. -/
def timersWF (s : MState) : Prop :=
  (∀ tm ∈ s.timers, tm.id < s.nextId)
  ∧ ((s.pollingRef = none ∧ s.timers = [])
     ∨ (∃ tm, s.pollingRef = some tm.id ∧ s.timers = [tm]))

/-- The loop-phase state of a session on `seg` at `index` with `loop = j`,
armed as interval `tid`, as produced by `playSegmentAt` from `init`. -/
def loopState (tid : Nat) (index : Int) (seg : Segment) (j : Nat) : MState :=
  { current := some { idx := index, loop := j },
    pollingRef := some tid,
    timers := [{ id := tid, index := index, seg := seg }],
    nextId := tid + 1 }

end Mvp

/-- Demo environment for the MVP controller: selected words "a" and "b",
loop budget 2, auto-advance on, a ready player. -/
def Mvp.envTwo : Mvp.Env :=
  { segments := [{ word := "a", start := 0, «end» := 2 },
                 { word := "b", start := 5, «end» := 7 }],
    selectedWords := ["a", "b"], loops := 2, autoAdvance := true,
    rate := 1, player := true }

/-- Demo environment with a single selected word and a loop budget of 1. -/
def Mvp.envOne : Mvp.Env :=
  { segments := [{ word := "a", start := 0, «end» := 2 }],
    selectedWords := ["a"], loops := 1, autoAdvance := true,
    rate := 1, player := true }

/-- The state left behind by a budget-exhausting poll tick, before any
auto-advance: repeat count bumped, interval cleared, `pollingRef` nulled. -/
def Mvp.exhaustState (s : Mvp.MState) (cur : Mvp.Current) : Mvp.MState :=
  { s with
      current := some { idx := cur.idx, loop := cur.loop + 1 },
      timers := Mvp.clearInterval s.pollingRef s.timers,
      pollingRef := none }

/-- What a budget-exhausting tick of timer `tm` does, case-split on
auto-advance: pause when disabled; recurse into `playSegmentAt(index + 1)`
when enabled, which is a silent no-op (no pause) when the next position does
not resolve. -/
def Mvp.exhaustOutcome (env : Mvp.Env) (tid : Nat) (t : ℚ) (s : Mvp.MState)
    (tm : Mvp.Timer) (cur : Mvp.Current) : Prop :=
  (env.autoAdvance = false →
    Mvp.fire env tid t s = (Mvp.exhaustState s cur, [Cmd.pauseVideo]))
  ∧ (env.autoAdvance = true →
    Mvp.fire env tid t s
      = Mvp.playSegmentAt env (tm.index + 1) (Mvp.exhaustState s cur))
  ∧ (env.autoAdvance = true →
    (tm.index + 1 < 0 ∨ (env.selectedWords.length : Int) ≤ tm.index + 1
      ∨ (∀ word, env.selectedWords[(tm.index + 1).toNat]? = some word →
          env.segments.find? (fun sg => sg.word == word) = none)) →
    Mvp.fire env tid t s = (Mvp.exhaustState s cur, []))

/-- The state of the MVP controller right after playing word 0 of `envOne`. -/
def Mvp.s1One : Mvp.MState := (Mvp.playSegmentAt Mvp.envOne 0 Mvp.init).1

/-- A demo armed `App.tsx` poll timer on the segment `[0, 2)` of word "a". -/
def appTimerDemo : AppTimer :=
  { id := 0, visible := [], index := 0,
    seg := { start := 0, «end» := 2, word := "a", level := 0 } }

/-- A demo `App.tsx` state with `appTimerDemo` armed and a session active. -/
def appArmed : AppState :=
  { words := [], unknownOnly := false, windowSec := 2, current := some 0,
    pollingRef := some 0, timers := [appTimerDemo], nextId := 1, player := true }

/-- Demo `App.tsx` state: two unknown words at `t = 0` and `t = 5`,
`unknownOnly` on, `windowSec = 2`, a ready player, nothing scheduled. -/
def appDemo : AppState :=
  { words := [{ t := 0, word := "a", level := 0 },
              { t := 5, word := "b", level := 0 }],
    unknownOnly := true, windowSec := 2, current := none, pollingRef := none,
    timers := [], nextId := 0, player := true }

/-- Loop-count exactness for one session started from `init`: the initial
play issues one seek+play pair (after `setPlaybackRate`), each of the first
`loops - 1` completing ticks issues exactly one further seek+play pair for
the same segment while the session stays on the same index with an
incremented counter and the same armed interval, the whole trace contains
exactly `loops` play commands (each preceded by a seek to `seg.start`), and
the `loops`-th completing tick is the advance decision: it clears the
interval and either recurses into `playSegmentAt(index + 1)` or pauses. -/
def Mvp.loopExactness (env : Mvp.Env) (index : Int) (seg : Mvp.Segment)
    (t : ℚ) : Prop :=
  Mvp.playSegmentAt env index Mvp.init
      = (Mvp.loopState 0 index seg 0,
         [Cmd.setRate env.rate, Cmd.seekTo seg.start, Cmd.playVideo])
  ∧ Mvp.fireTicks env 0 t (env.loops - 1) (Mvp.loopState 0 index seg 0)
      = (Mvp.loopState 0 index seg (env.loops - 1),
         (List.replicate (env.loops - 1)
           [Cmd.seekTo seg.start, Cmd.playVideo]).flatten)
  ∧ ([Cmd.setRate env.rate, Cmd.seekTo seg.start, Cmd.playVideo]
      ++ (List.replicate (env.loops - 1)
           [Cmd.seekTo seg.start, Cmd.playVideo]).flatten).count Cmd.playVideo
      = env.loops
  ∧ Mvp.fire env 0 t (Mvp.loopState 0 index seg (env.loops - 1))
      = (if env.autoAdvance then
          Mvp.playSegmentAt env (index + 1)
            (Mvp.exhaustState (Mvp.loopState 0 index seg (env.loops - 1))
              { idx := index, loop := env.loops - 1 })
        else
          (Mvp.exhaustState (Mvp.loopState 0 index seg (env.loops - 1))
            { idx := index, loop := env.loops - 1 }, [Cmd.pauseVideo]))

theorem sortedByT_length (ws : List WordRow) : (sortedByT ws).length = ws.length :=
  List.length_mergeSort ws

theorem sortedByT_sorted (ws : List WordRow) :
    List.Pairwise (fun a b : WordRow => a.t ≤ b.t) (sortedByT ws) := by
  have h := @List.sorted_mergeSort WordRow (fun a b => decide (a.t ≤ b.t))
    (fun a b c hab hbc => by
      simp only [decide_eq_true_eq] at *
      exact le_trans hab hbc)
    (fun a b => by
      rcases le_total a.t b.t with h | h <;> simp [h])
    ws
  exact h.imp (fun hab => of_decide_eq_true hab)

theorem makeSegments_length (ws : List WordRow) (w : ℚ) :
    (makeSegments ws w).length = ws.length := by
  unfold makeSegments
  split
  · next h => simp [List.isEmpty_iff.mp h]
  · simp [List.enum_length, sortedByT_length]

theorem makeSegments_ne_nil (ws : List WordRow) (w : ℚ) (h : ws ≠ []) :
    ¬ ws.isEmpty := by
  simpa [List.isEmpty_iff] using h

/-- Element `i` of the built list when a next marker exists. -/
theorem makeSegments_get_of_lt (ws : List WordRow) (w : ℚ) (i : ℕ)
    (h : i + 1 < ws.length) :
    (makeSegments ws w).get ⟨i, by rw [makeSegments_length]; omega⟩ =
      { start := ((sortedByT ws).get ⟨i, by rw [sortedByT_length]; omega⟩).t,
        «end» := max ((sortedByT ws).get ⟨i, by rw [sortedByT_length]; omega⟩).t
          (((sortedByT ws).get ⟨i + 1, by rw [sortedByT_length]; omega⟩).t - 1/20),
        word := ((sortedByT ws).get ⟨i, by rw [sortedByT_length]; omega⟩).word,
        level := ((sortedByT ws).get ⟨i, by rw [sortedByT_length]; omega⟩).level } := by
  have hne : ¬ ws.isEmpty := by
    cases ws with
    | nil => simp at h
    | cons a l => simp
  have hi : i < (sortedByT ws).length := by rw [sortedByT_length]; omega
  have hi1 : i + 1 < (sortedByT ws).length := by rw [sortedByT_length]; omega
  simp only [makeSegments, hne, Bool.false_eq_true, if_false, List.get_eq_getElem,
    List.getElem_map, List.getElem_enum, List.getElem?_eq_getElem hi1]

/-- Element `i` of the built list when marker `i` is the last one. -/
theorem makeSegments_get_last (ws : List WordRow) (w : ℚ) (i : ℕ)
    (h1 : i < ws.length) (h2 : ws.length ≤ i + 1) :
    (makeSegments ws w).get ⟨i, by rw [makeSegments_length]; omega⟩ =
      { start := ((sortedByT ws).get ⟨i, by rw [sortedByT_length]; omega⟩).t,
        «end» := ((sortedByT ws).get ⟨i, by rw [sortedByT_length]; omega⟩).t
          + max (3/10) w,
        word := ((sortedByT ws).get ⟨i, by rw [sortedByT_length]; omega⟩).word,
        level := ((sortedByT ws).get ⟨i, by rw [sortedByT_length]; omega⟩).level } := by
  have hne : ¬ ws.isEmpty := by
    cases ws with
    | nil => simp at h1
    | cons a l => simp
  have hi : i < (sortedByT ws).length := by rw [sortedByT_length]; omega
  have hnone : (sortedByT ws)[i + 1]? = none :=
    List.getElem?_eq_none (by rw [sortedByT_length]; omega)
  simp only [makeSegments, hne, Bool.false_eq_true, if_false, List.get_eq_getElem,
    List.getElem_map, List.getElem_enum, hnone]

theorem sortedByT_singleton (m : WordRow) : sortedByT [m] = [m] :=
  List.mergeSort_of_sorted (by simp)

theorem makeSegments_singleton (m : WordRow) (w : ℚ) :
    makeSegments [m] w
      = [{ start := m.t, «end» := m.t + max (3/10) w, word := m.word, level := m.level }] := by
  simp [makeSegments, sortedByT_singleton, List.enum]

/-- The `start` of segment `i` is the `t` of sorted marker `i`, in both shapes. -/
theorem makeSegments_start (ws : List WordRow) (w : ℚ) (i : ℕ) (h : i < ws.length) :
    ((makeSegments ws w).get ⟨i, by rw [makeSegments_length]; omega⟩).start
      = ((sortedByT ws).get ⟨i, by rw [sortedByT_length]; omega⟩).t := by
  rcases lt_or_ge (i + 1) ws.length with hlt | hge
  · rw [makeSegments_get_of_lt ws w i hlt]
  · rw [makeSegments_get_last ws w i h hge]

/-- The marker time `t` is monotone along `sortedByT`. -/
theorem sortedByT_t_mono (ws : List WordRow) (i j : ℕ) (hij : i < j)
    (hj : j < ws.length) :
    ((sortedByT ws).get ⟨i, by rw [sortedByT_length]; omega⟩).t
      ≤ ((sortedByT ws).get ⟨j, by rw [sortedByT_length]; omega⟩).t := by
  have hs := List.pairwise_iff_get.mp (sortedByT_sorted ws)
  exact hs ⟨i, by rw [sortedByT_length]; omega⟩ ⟨j, by rw [sortedByT_length]; omega⟩ hij

/-- C1: for every marker list and window configuration, `makeSegments`
returns one segment per marker, in ascending-`t` order; each non-last segment
has `start = marker.t` and `end = max start (nextMarker.t - gapEpsilon)`
(`gapEpsilon = EPS = 1/20 = 0.05`); the last segment has
`end = start + max minSegmentSec windowSec` (`minSegmentSec = 3/10 = 0.3`);
the empty list yields the empty list, and a single marker yields one segment
of length `max minSegmentSec windowSec`. -/
theorem claim_C1 (ws : List WordRow) (w : ℚ) :
    (makeSegments ws w).length = ws.length
    ∧ List.Pairwise (fun a b : Segment => a.start ≤ b.start) (makeSegments ws w)
    ∧ (∀ i, ∀ h : i + 1 < ws.length,
        ((makeSegments ws w).get ⟨i, by rw [makeSegments_length]; omega⟩).start
          = ((sortedByT ws).get ⟨i, by rw [sortedByT_length]; omega⟩).t
        ∧ ((makeSegments ws w).get ⟨i, by rw [makeSegments_length]; omega⟩).«end»
          = max (((makeSegments ws w).get ⟨i, by rw [makeSegments_length]; omega⟩).start)
              (((sortedByT ws).get ⟨i + 1, by rw [sortedByT_length]; omega⟩).t - 1/20))
    ∧ (∀ i, ∀ h1 : i < ws.length, ∀ h2 : ws.length ≤ i + 1,
        ((makeSegments ws w).get ⟨i, by rw [makeSegments_length]; omega⟩).start
          = ((sortedByT ws).get ⟨i, by rw [sortedByT_length]; omega⟩).t
        ∧ ((makeSegments ws w).get ⟨i, by rw [makeSegments_length]; omega⟩).«end»
          = ((makeSegments ws w).get ⟨i, by rw [makeSegments_length]; omega⟩).start
              + max (3/10) w)
    ∧ makeSegments [] w = []
    ∧ (∀ m : WordRow, makeSegments [m] w
        = [{ start := m.t, «end» := m.t + max (3/10) w, word := m.word, level := m.level }]) := by
  refine ⟨makeSegments_length ws w, ?_, ?_, ?_, rfl, fun m => makeSegments_singleton m w⟩
  · refine List.pairwise_iff_get.mpr (fun i j hij => ?_)
    have hi : (i : ℕ) < ws.length := lt_of_lt_of_eq i.isLt (makeSegments_length ws w)
    have hj : (j : ℕ) < ws.length := lt_of_lt_of_eq j.isLt (makeSegments_length ws w)
    have hsi := makeSegments_start ws w i hi
    have hsj := makeSegments_start ws w j hj
    have hmono := sortedByT_t_mono ws i j hij hj
    simp only [List.get_eq_getElem] at hsi hsj hmono ⊢
    rw [hsi, hsj]; exact hmono
  · intro i h
    constructor
    · exact makeSegments_start ws w i (by omega)
    · have hg := makeSegments_get_of_lt ws w i h
      simp only [List.get_eq_getElem] at hg ⊢
      rw [hg]
  · intro i h1 h2
    constructor
    · exact makeSegments_start ws w i h1
    · have hg := makeSegments_get_last ws w i h1 h2
      simp only [List.get_eq_getElem] at hg ⊢
      rw [hg]

/-- Witness for C1: the two-marker list `[(0,"a",0), (5,"b",1)]` at
`windowSec = 2`, non-last index `0`. -/
theorem claim_C1_witness :
    (0:ℕ) + 1 < ([⟨0, "a", 0⟩, ⟨5, "b", 1⟩] : List WordRow).length
    ∧ (((makeSegments [⟨0, "a", 0⟩, ⟨5, "b", 1⟩] 2).get
          ⟨0, by simp [makeSegments_length]⟩).start
        = ((sortedByT [⟨0, "a", 0⟩, ⟨5, "b", 1⟩]).get
            ⟨0, by simp [sortedByT_length]⟩).t
      ∧ ((makeSegments [⟨0, "a", 0⟩, ⟨5, "b", 1⟩] 2).get
          ⟨0, by simp [makeSegments_length]⟩).«end»
        = max (((makeSegments [⟨0, "a", 0⟩, ⟨5, "b", 1⟩] 2).get
            ⟨0, by simp [makeSegments_length]⟩).start)
            (((sortedByT [⟨0, "a", 0⟩, ⟨5, "b", 1⟩]).get
              ⟨0 + 1, by simp [sortedByT_length]⟩).t - 1/20)) :=
  ⟨by norm_num, (claim_C1 [⟨0, "a", 0⟩, ⟨5, "b", 1⟩] 2).2.2.1 0 (by norm_num)⟩

/-- C2: segments never overlap: `start_i ≤ end_i` for every segment and
`end_i ≤ start_{i+1}` for every adjacent pair, for every (not necessarily
sorted) input list and every window configuration. -/
theorem claim_C2 (ws : List WordRow) (w : ℚ) :
    (∀ i, ∀ h : i < ws.length,
      ((makeSegments ws w).get ⟨i, by rw [makeSegments_length]; omega⟩).start
        ≤ ((makeSegments ws w).get ⟨i, by rw [makeSegments_length]; omega⟩).«end»)
    ∧ (∀ i, ∀ h : i + 1 < ws.length,
      ((makeSegments ws w).get ⟨i, by rw [makeSegments_length]; omega⟩).«end»
        ≤ ((makeSegments ws w).get ⟨i + 1, by rw [makeSegments_length]; omega⟩).start) := by
  constructor
  · intro i h
    rcases lt_or_ge (i + 1) ws.length with hlt | hge
    · have hg := makeSegments_get_of_lt ws w i hlt
      simp only [List.get_eq_getElem] at hg ⊢
      rw [hg]
      exact le_max_left _ _
    · have hg := makeSegments_get_last ws w i h hge
      simp only [List.get_eq_getElem] at hg ⊢
      rw [hg]
      have h0 : (0:ℚ) ≤ max (3/10) w :=
        le_trans (by norm_num) (le_max_left _ _)
      simpa using h0
  · intro i h
    have hg := makeSegments_get_of_lt ws w i h
    have hs := makeSegments_start ws w (i + 1) (by omega)
    have hmono := sortedByT_t_mono ws i (i + 1) (by omega) (by omega)
    simp only [List.get_eq_getElem] at hg hs hmono ⊢
    rw [hg, hs]
    refine max_le hmono ?_
    exact sub_le_self _ (by norm_num)

/-- Witness for C2: the same two-marker list, indices `0` and `0+1`. -/
theorem claim_C2_witness :
    ((0:ℕ) < ([⟨0, "a", 0⟩, ⟨5, "b", 1⟩] : List WordRow).length
      ∧ ((makeSegments [⟨0, "a", 0⟩, ⟨5, "b", 1⟩] 2).get
          ⟨0, by simp [makeSegments_length]⟩).start
        ≤ ((makeSegments [⟨0, "a", 0⟩, ⟨5, "b", 1⟩] 2).get
          ⟨0, by simp [makeSegments_length]⟩).«end»)
    ∧ ((0:ℕ) + 1 < ([⟨0, "a", 0⟩, ⟨5, "b", 1⟩] : List WordRow).length
      ∧ ((makeSegments [⟨0, "a", 0⟩, ⟨5, "b", 1⟩] 2).get
          ⟨0, by simp [makeSegments_length]⟩).«end»
        ≤ ((makeSegments [⟨0, "a", 0⟩, ⟨5, "b", 1⟩] 2).get
          ⟨0 + 1, by simp [makeSegments_length]⟩).start) :=
  ⟨⟨by norm_num, (claim_C2 [⟨0, "a", 0⟩, ⟨5, "b", 1⟩] 2).1 0 (by norm_num)⟩,
   ⟨by norm_num, (claim_C2 [⟨0, "a", 0⟩, ⟨5, "b", 1⟩] 2).2 0 (by norm_num)⟩⟩

/-- C10: `toggleKnownByStart(s)` maps the word list to one of the same
length and order; every row whose `t` equals `s` keeps `t` and `word` and has
its level flipped (`0 → 1`, nonzero → `0`, so all duplicates at `s` flip
together), and every row whose `t` differs from `s` is unchanged. -/
theorem claim_C10 (ws : List WordRow) (st : ℚ) :
    (toggleKnownByStartWords st ws).length = ws.length
    ∧ (∀ i, ∀ h : i < ws.length,
        ((ws.get ⟨i, h⟩).t = st →
          (toggleKnownByStartWords st ws).get
              ⟨i, by rw [toggleKnownByStartWords, List.length_map]; omega⟩
            = { t := (ws.get ⟨i, h⟩).t, word := (ws.get ⟨i, h⟩).word,
                level := if (ws.get ⟨i, h⟩).level ≠ 0 then 0 else 1 })
        ∧ ((ws.get ⟨i, h⟩).t ≠ st →
          (toggleKnownByStartWords st ws).get
              ⟨i, by rw [toggleKnownByStartWords, List.length_map]; omega⟩
            = ws.get ⟨i, h⟩)) := by
  constructor
  · simp [toggleKnownByStartWords]
  · intro i h
    constructor
    · intro heq
      simp only [toggleKnownByStartWords, List.get_eq_getElem, List.getElem_map] at *
      rw [if_pos heq]
    · intro hne
      simp only [toggleKnownByStartWords, List.get_eq_getElem, List.getElem_map] at *
      rw [if_neg hne]

/-- Witness for C10: `[(2,"x",0), (2,"y",1)]` toggled at `2`; both duplicate
rows flip, the first from level `0` and the second from level `1`. -/
theorem claim_C10_witness :
    ((0:ℕ) < ([⟨2, "x", 0⟩, ⟨2, "y", 1⟩] : List WordRow).length
      ∧ (([⟨2, "x", 0⟩, ⟨2, "y", 1⟩] : List WordRow).get ⟨0, by simp⟩).t = 2)
    ∧ (toggleKnownByStartWords 2 [⟨2, "x", 0⟩, ⟨2, "y", 1⟩]).get
        ⟨0, by rw [toggleKnownByStartWords, List.length_map]; simp⟩
      = { t := (([⟨2, "x", 0⟩, ⟨2, "y", 1⟩] : List WordRow).get ⟨0, by simp⟩).t,
          word := (([⟨2, "x", 0⟩, ⟨2, "y", 1⟩] : List WordRow).get ⟨0, by simp⟩).word,
          level := if (([⟨2, "x", 0⟩, ⟨2, "y", 1⟩] : List WordRow).get
              ⟨0, by simp⟩).level ≠ 0 then 0 else 1 } :=
  ⟨⟨by norm_num, by norm_num⟩,
   ((claim_C10 [⟨2, "x", 0⟩, ⟨2, "y", 1⟩] 2).2 0 (by norm_num)).1 (by norm_num)⟩

/-- C9: `play` on a target that does not resolve to a segment of the
current playable list — a negative or out-of-range index, or a selected word
with no matching segment — is a complete no-op: unchanged state, no commands,
no error. -/
theorem Mvp.playSegmentAt_invalid (env : Mvp.Env) (index : Int) (s : Mvp.MState)
    (h : index < 0 ∨ (env.selectedWords.length : Int) ≤ index
      ∨ (∀ word, env.selectedWords[index.toNat]? = some word →
          env.segments.find? (fun sg => sg.word == word) = none)) :
    Mvp.playSegmentAt env index s = (s, []) := by
  unfold Mvp.playSegmentAt
  rcases h with h | h | h
  · rw [if_pos (by tauto)]
  · rw [if_pos (by tauto)]
  · split
    · rfl
    · rcases hw : env.selectedWords[index.toNat]? with _ | word
      · simp [hw]
      · simp [hw, h word hw]

theorem claim_C9 (env : Mvp.Env) (index : Int) (s : Mvp.MState)
    (h : index < 0 ∨ (env.selectedWords.length : Int) ≤ index
      ∨ (∀ word, env.selectedWords[index.toNat]? = some word →
          env.segments.find? (fun sg => sg.word == word) = none)) :
    Mvp.playSegmentAt env index s = (s, []) :=
  Mvp.playSegmentAt_invalid env index s h

/-- Witness for C9: index `5` against a one-word list. -/
theorem claim_C9_witness :
    ((5:Int) < 0
      ∨ ((Mvp.Env.mk [⟨"a", 0, 2⟩] ["a"] 2 true 1 true).selectedWords.length : Int) ≤ 5
      ∨ (∀ word,
          (Mvp.Env.mk [⟨"a", 0, 2⟩] ["a"] 2 true 1 true).selectedWords[(5:Int).toNat]?
            = some word →
          (Mvp.Env.mk [⟨"a", 0, 2⟩] ["a"] 2 true 1 true).segments.find?
            (fun sg => sg.word == word) = none))
    ∧ Mvp.playSegmentAt (Mvp.Env.mk [⟨"a", 0, 2⟩] ["a"] 2 true 1 true) 5 Mvp.init
        = (Mvp.init, []) :=
  ⟨Or.inr (Or.inl (by norm_num)),
   claim_C9 (Mvp.Env.mk [⟨"a", 0, 2⟩] ["a"] 2 true 1 true) 5 Mvp.init
     (Or.inr (Or.inl (by norm_num)))⟩

theorem Mvp.clearInterval_shape (s : Mvp.MState)
    (h : (s.pollingRef = none ∧ s.timers = [])
      ∨ (∃ tm, s.pollingRef = some tm.id ∧ s.timers = [tm])) :
    Mvp.clearInterval s.pollingRef s.timers = [] := by
  rcases h with ⟨hp, ht⟩ | ⟨tm, hp, ht⟩
  · rw [hp, ht]; rfl
  · rw [hp, ht]; simp [Mvp.clearInterval]

theorem Mvp.wf_play (env : Mvp.Env) (index : Int) (s : Mvp.MState)
    (h : Mvp.timersWF s) : Mvp.timersWF (Mvp.playSegmentAt env index s).1 := by
  unfold Mvp.playSegmentAt
  split
  · exact h
  · split
    · exact h
    · split
      · exact h
      · rw [Mvp.clearInterval_shape s h.2]
        refine ⟨?_, Or.inr ⟨_, rfl, rfl⟩⟩
        intro tm htm
        simp only [List.nil_append, List.mem_singleton] at htm
        rw [htm]
        exact Nat.lt_succ_self _

theorem Mvp.wf_stop (env : Mvp.Env) (s : Mvp.MState)
    (h : Mvp.timersWF s) : Mvp.timersWF (Mvp.stopAll env s).1 := by
  unfold Mvp.stopAll
  rw [Mvp.clearInterval_shape s h.2]
  exact ⟨by intro tm htm; simp at htm, Or.inl ⟨rfl, rfl⟩⟩

theorem Mvp.wf_clear (s : Mvp.MState) (c : Option Mvp.Current)
    (h : Mvp.timersWF s) :
    Mvp.timersWF
      { current := c, pollingRef := none,
        timers := Mvp.clearInterval s.pollingRef s.timers, nextId := s.nextId } := by
  rw [Mvp.clearInterval_shape s h.2]
  exact ⟨by intro tm htm; simp at htm, Or.inl ⟨rfl, rfl⟩⟩

theorem Mvp.wf_fire (env : Mvp.Env) (tid : Nat) (t : ℚ) (s : Mvp.MState)
    (h : Mvp.timersWF s) : Mvp.timersWF (Mvp.fire env tid t s).1 := by
  unfold Mvp.fire Mvp.tickBody
  repeat' split
  all_goals first
    | exact h
    | exact ⟨h.1, h.2⟩
    | exact Mvp.wf_play env _ _ (Mvp.wf_clear s _ h)
    | exact Mvp.wf_clear s _ h

theorem Mvp.reach_wf (s : Mvp.MState) (h : Mvp.Reach s) : Mvp.timersWF s := by
  induction h with
  | init => exact ⟨by intro tm htm; simp [Mvp.init] at htm, Or.inl ⟨rfl, rfl⟩⟩
  | play env index _ ih => exact Mvp.wf_play env index _ ih
  | stop env _ ih => exact Mvp.wf_stop env _ ih
  | fire env tid t _ ih => exact Mvp.wf_fire env tid t _ ih

/-- C5: in every reachable scheduler state at most one poll interval is
armed; firing a handle that is no longer armed is a no-op; and after a session
G1 (armed as `tid1`) is superseded by a newer session G2, firing G1's handle
is a no-op, so only G2's progression is observable. -/
theorem claim_C5 (s : Mvp.MState) (h : Mvp.Reach s) :
    s.timers.length ≤ 1
    ∧ (∀ env tid t, s.timers.find? (fun tm => tm.id == tid) = none →
        Mvp.fire env tid t s = (s, []))
    ∧ (∀ env1 env2 env3 i1 i2 tid1 t,
        ((Mvp.playSegmentAt env1 i1 s).1).pollingRef = some tid1 →
        ((Mvp.playSegmentAt env2 i2 (Mvp.playSegmentAt env1 i1 s).1).1).pollingRef
          ≠ some tid1 →
        Mvp.fire env3 tid1 t
            (Mvp.playSegmentAt env2 i2 (Mvp.playSegmentAt env1 i1 s).1).1
          = ((Mvp.playSegmentAt env2 i2 (Mvp.playSegmentAt env1 i1 s).1).1, [])) := by
  have hwf := Mvp.reach_wf s h
  refine ⟨?_, ?_, ?_⟩
  · rcases hwf.2 with ⟨_, ht⟩ | ⟨tm, _, ht⟩ <;> simp [ht]
  · intro env tid t hfind
    unfold Mvp.fire
    rw [hfind]
  · intro env1 env2 env3 i1 i2 tid1 t hp1 hne
    have hwf2 := Mvp.wf_play env2 i2 _ (Mvp.wf_play env1 i1 _ hwf)
    unfold Mvp.fire
    rcases hwf2.2 with ⟨hp, ht⟩ | ⟨tm, hp, ht⟩
    · rw [ht]; rfl
    · have hid : tm.id ≠ tid1 := by
        intro hcontra
        exact hne (by rw [hp, hcontra])
      rw [ht]
      have hb : (tm.id == tid1) = false := by simp [hid]
      simp [List.find?, hb]

/-- Witness for C5: from `init`, play word 0 (session G1, handle 0), then
play word 1 (session G2, handle 1); firing handle 0 afterwards is a no-op. -/
theorem claim_C5_witness :
    ((Mvp.playSegmentAt Mvp.envTwo 0 Mvp.init).1).pollingRef = some 0
    ∧ ((Mvp.playSegmentAt Mvp.envTwo 1
          (Mvp.playSegmentAt Mvp.envTwo 0 Mvp.init).1).1).pollingRef ≠ some 0
    ∧ Mvp.fire Mvp.envTwo 0 10
          (Mvp.playSegmentAt Mvp.envTwo 1
            (Mvp.playSegmentAt Mvp.envTwo 0 Mvp.init).1).1
        = ((Mvp.playSegmentAt Mvp.envTwo 1
              (Mvp.playSegmentAt Mvp.envTwo 0 Mvp.init).1).1, []) :=
  ⟨by decide, by decide,
   (claim_C5 Mvp.init Mvp.Reach.init).2.2 Mvp.envTwo Mvp.envTwo Mvp.envTwo 0 1 0 10
     (by decide) (by decide)⟩

/-- C8: `stopAll` is idempotent and total: from any reachable state it
produces the idle state (no session, no armed timer), a second call leaves
that state unchanged, and it asks the player to pause whenever a player
handle exists. -/
theorem claim_C8 (env env2 : Mvp.Env) (s : Mvp.MState) (h : Mvp.Reach s) :
    (Mvp.stopAll env s).1.current = none
    ∧ (Mvp.stopAll env s).1.pollingRef = none
    ∧ (Mvp.stopAll env s).1.timers = []
    ∧ (Mvp.stopAll env2 (Mvp.stopAll env s).1).1 = (Mvp.stopAll env s).1
    ∧ (env.player = true → (Mvp.stopAll env s).2 = [Cmd.pauseVideo]) := by
  have hwf := Mvp.reach_wf s h
  refine ⟨rfl, rfl, Mvp.clearInterval_shape s hwf.2, ?_, fun hp => by
    simp [Mvp.stopAll, hp]⟩
  simp [Mvp.stopAll, Mvp.clearInterval, Mvp.clearInterval_shape s hwf.2]

/-- Witness for C8: stopping twice from the never-started state. -/
theorem claim_C8_witness :
    (Mvp.stopAll Mvp.envTwo Mvp.init).1.current = none
    ∧ (Mvp.stopAll Mvp.envTwo Mvp.init).1.pollingRef = none
    ∧ (Mvp.stopAll Mvp.envTwo Mvp.init).1.timers = []
    ∧ (Mvp.stopAll Mvp.envTwo (Mvp.stopAll Mvp.envTwo Mvp.init).1).1
        = (Mvp.stopAll Mvp.envTwo Mvp.init).1
    ∧ (Mvp.envTwo.player = true →
        (Mvp.stopAll Mvp.envTwo Mvp.init).2 = [Cmd.pauseVideo]) :=
  claim_C8 Mvp.envTwo Mvp.envTwo Mvp.init Mvp.Reach.init

/-- C6: completion is decided by a `≥`-threshold comparison on the polled
position, never exact equality: the `App.tsx` tick treats the segment as
complete iff `t ≥ seg.end - END_EPS` (`END_EPS = 1/100`), a below-threshold
tick changing no state and keeping the interval armed; the MVP tick performs
the same `≥`-threshold test directly against `seg.end` (tolerance zero), a
below-threshold tick is a no-op, and an at-or-past-threshold tick within the
loop budget increments the repeat counter and re-issues seek + play. -/
theorem claim_C6 :
    (∀ (tid : Nat) (t : ℚ) (s : AppState) (tm : AppTimer),
      s.timers.find? (fun x => x.id == tid) = some tm →
      s.player = true →
      (t < tm.seg.«end» - 1/100 → appFire tid t s = (s, []))
      ∧ (∀ c, s.current = some c → tm.seg.«end» - 1/100 ≤ t →
          appFire tid t s
            = playSequenceFrom tm.visible (tm.index + 1)
                { s with timers := clearIntervalApp s.pollingRef s.timers,
                         pollingRef := none }))
    ∧ (∀ (env : Mvp.Env) (tid : Nat) (t : ℚ) (s : Mvp.MState) (tm : Mvp.Timer),
      s.timers.find? (fun x => x.id == tid) = some tm →
      env.player = true →
      (t < tm.seg.«end» → Mvp.fire env tid t s = (s, []))
      ∧ (∀ cur, s.current = some cur → tm.seg.«end» ≤ t →
          cur.loop + 1 < env.loops →
          Mvp.fire env tid t s
            = ({ s with current := some { idx := cur.idx, loop := cur.loop + 1 } },
               [Cmd.seekTo tm.seg.start, Cmd.playVideo]))) := by
  constructor
  · intro tid t s tm hfind hplayer
    obtain ⟨sw, so, swin, scur, spoll, stim, snid, spl⟩ := s
    simp only at hfind hplayer ⊢
    subst hplayer
    constructor
    · intro hlt
      unfold appFire
      rw [hfind]
      cases scur with
      | none => rfl
      | some c =>
        simp only [if_true]
        rw [if_neg (by simpa using not_le.mpr hlt)]
    · intro c hcur hge
      subst hcur
      unfold appFire
      rw [hfind]
      simp only [if_true]
      rw [if_pos (by simpa using hge)]
  · intro env tid t s tm hfind hplayer
    obtain ⟨scur, spoll, stim, snid⟩ := s
    simp only at hfind ⊢
    constructor
    · intro hlt
      unfold Mvp.fire
      rw [hfind]
      unfold Mvp.tickBody
      cases scur with
      | none => rfl
      | some c =>
        simp only [hplayer, if_true]
        rw [if_neg (not_le.mpr hlt)]
    · intro cur hcur hge hbudget
      subst hcur
      unfold Mvp.fire
      rw [hfind]
      unfold Mvp.tickBody
      simp only [hplayer, if_true]
      rw [if_pos hge, if_pos hbudget]

/-- Witness for C6: the armed demo timer on `[0, 2)`, polled at `t = 0`
(below threshold) — a no-op tick. -/
theorem claim_C6_witness :
    appArmed.timers.find? (fun x => x.id == 0) = some appTimerDemo
    ∧ appArmed.player = true
    ∧ (0:ℚ) < appTimerDemo.seg.«end» - 1/100
    ∧ appFire 0 0 appArmed = (appArmed, []) :=
  ⟨by decide, rfl, by norm_num [appTimerDemo],
   ((claim_C6.1 0 0 appArmed appTimerDemo (by decide) rfl).1
     (by norm_num [appTimerDemo]))⟩

/-- C7 (amended): a budget-exhausting tick always cancels the poll
interval and keeps the bumped session record; with auto-advance disabled it
pauses the player; with auto-advance enabled it recurses into
`playSegmentAt(index + 1)`, and when that target does not resolve (sequence
exhausted) the recursion is a silent no-op — no pause command is issued. -/
theorem Mvp.fire_exhaust (env : Mvp.Env) (tid : Nat) (t : ℚ) (s : Mvp.MState)
    (tm : Mvp.Timer) (cur : Mvp.Current)
    (hfind : s.timers.find? (fun x => x.id == tid) = some tm)
    (hcur : s.current = some cur)
    (hplayer : env.player = true)
    (ht : tm.seg.«end» ≤ t)
    (hbudget : env.loops ≤ cur.loop + 1) :
    Mvp.fire env tid t s
      = if env.autoAdvance then
          Mvp.playSegmentAt env (tm.index + 1) (Mvp.exhaustState s cur)
        else (Mvp.exhaustState s cur, [Cmd.pauseVideo]) := by
  obtain ⟨scur, spoll, stim, snid⟩ := s
  simp only at hfind hcur
  subst hcur
  unfold Mvp.fire
  rw [hfind]
  unfold Mvp.tickBody
  simp only [hplayer, if_true]
  rw [if_pos ht, if_neg (by omega : ¬ cur.loop + 1 < env.loops)]
  rfl

theorem claim_C7 (env : Mvp.Env) (tid : Nat) (t : ℚ) (s : Mvp.MState)
    (tm : Mvp.Timer) (cur : Mvp.Current)
    (hfind : s.timers.find? (fun x => x.id == tid) = some tm)
    (hcur : s.current = some cur)
    (hplayer : env.player = true)
    (ht : tm.seg.«end» ≤ t)
    (hbudget : env.loops ≤ cur.loop + 1) :
    Mvp.exhaustOutcome env tid t s tm cur := by
  have hfire := Mvp.fire_exhaust env tid t s tm cur hfind hcur hplayer ht hbudget
  refine ⟨fun ha => ?_, fun ha => ?_, fun ha hinv => ?_⟩
  · rw [hfire, ha]; simp
  · rw [hfire, ha]; simp
  · rw [hfire, ha]
    simp only [if_true]
    exact Mvp.playSegmentAt_invalid env (tm.index + 1) (Mvp.exhaustState s cur) hinv

/-- Witness for C7: `envOne` (single word, `loops = 1`, auto-advance on),
fired at `t = 10` after the initial play — the sequence is exhausted. -/
theorem claim_C7_witness :
    Mvp.s1One.timers.find? (fun x => x.id == 0)
        = some { id := 0, index := 0, seg := { word := "a", start := 0, «end» := 2 } }
    ∧ Mvp.s1One.current = some { idx := 0, loop := 0 }
    ∧ Mvp.envOne.player = true
    ∧ ({ id := 0, index := 0,
         seg := { word := "a", start := 0, «end» := 2 } } : Mvp.Timer).seg.«end» ≤ (10:ℚ)
    ∧ Mvp.envOne.loops ≤ ({ idx := 0, loop := 0 } : Mvp.Current).loop + 1
    ∧ Mvp.exhaustOutcome Mvp.envOne 0 10 Mvp.s1One
        { id := 0, index := 0, seg := { word := "a", start := 0, «end» := 2 } }
        { idx := 0, loop := 0 } :=
  ⟨by decide, by decide, rfl, by decide, by decide,
   claim_C7 Mvp.envOne 0 10 Mvp.s1One
     { id := 0, index := 0, seg := { word := "a", start := 0, «end» := 2 } }
     { idx := 0, loop := 0 }
     (by decide) (by decide) rfl (by decide) (by decide)⟩

/-- Counterexample to C7 as stated: with `envOne` (auto-advance enabled,
loop budget 1, one selected word) the exhausting tick issues **no** command —
in particular no pause — and leaves the session record in place, instead of
stopping the player and ending Idle. -/
theorem claim_C7_counterexample :
    (Mvp.fire Mvp.envOne 0 10 Mvp.s1One).2 = []
    ∧ Cmd.pauseVideo ∉ (Mvp.fire Mvp.envOne 0 10 Mvp.s1One).2
    ∧ (Mvp.fire Mvp.envOne 0 10 Mvp.s1One).1.current = some { idx := 0, loop := 1 }
    ∧ Mvp.envOne.autoAdvance = true := by
  refine ⟨by decide, by decide, by decide, rfl⟩

/-- During the loop phase the armed interval stays the same and each
completing tick adds one seek+play pair and bumps the counter. -/
theorem Mvp.loop_phase (env : Mvp.Env) (tid : Nat) (index : Int)
    (seg : Mvp.Segment) (t : ℚ) (hplayer : env.player = true)
    (ht : seg.«end» ≤ t) :
    ∀ k j, j + k < env.loops →
      Mvp.fireTicks env tid t k (Mvp.loopState tid index seg j)
        = (Mvp.loopState tid index seg (j + k),
           (List.replicate k [Cmd.seekTo seg.start, Cmd.playVideo]).flatten) := by
  intro k
  induction k with
  | zero => intro j h; simp [Mvp.fireTicks]
  | succ n ih =>
    intro j h
    have hfind : (Mvp.loopState tid index seg j).timers.find?
        (fun tm => tm.id == tid) = some { id := tid, index := index, seg := seg } := by
      simp [Mvp.loopState, List.find?]
    have hfire : Mvp.fire env tid t (Mvp.loopState tid index seg j)
        = (Mvp.loopState tid index seg (j + 1),
           [Cmd.seekTo seg.start, Cmd.playVideo]) := by
      unfold Mvp.fire
      rw [hfind]
      unfold Mvp.tickBody
      simp only [Mvp.loopState, hplayer, if_true]
      rw [if_pos ht, if_pos (by omega : j + 1 < env.loops)]
    unfold Mvp.fireTicks
    rw [hfire]
    simp only
    rw [ih (j + 1) (by omega)]
    have harith : j + 1 + n = j + (n + 1) := by omega
    rw [harith]
    simp [List.replicate_succ]

/-- A seek+play pair contributes one play command per repetition. -/
theorem Mvp.count_play_flatten (a : ℚ) (m : Nat) :
    ((List.replicate m [Cmd.seekTo a, Cmd.playVideo]).flatten).count
      Cmd.playVideo = m := by
  induction m with
  | zero => rfl
  | succ n ih =>
    rw [List.replicate_succ, List.flatten_cons, List.count_append, ih]
    rw [List.count_cons_of_ne (by simp), List.count_cons_self, List.count_nil]
    omega

/-- C3: with loop budget `N = loops ≥ 1`, starting a session on a resolved
target and letting every poll tick observe a position at or past the segment
end, exactly `N` seek-to-start + play pairs are issued for that segment
before the advance decision happens. -/
theorem claim_C3 (env : Mvp.Env) (index : Int) (word : String)
    (seg : Mvp.Segment) (t : ℚ)
    (hN : 1 ≤ env.loops)
    (hplayer : env.player = true)
    (hidx : 0 ≤ index)
    (hlen : index < (env.selectedWords.length : Int))
    (hword : env.selectedWords[index.toNat]? = some word)
    (hseg : env.segments.find? (fun sg => sg.word == word) = some seg)
    (ht : seg.«end» ≤ t) :
    Mvp.loopExactness env index seg t := by
  have hplay : Mvp.playSegmentAt env index Mvp.init
      = (Mvp.loopState 0 index seg 0,
         [Cmd.setRate env.rate, Cmd.seekTo seg.start, Cmd.playVideo]) := by
    unfold Mvp.playSegmentAt
    rw [if_neg (by push_neg; exact ⟨by simp [hplayer], hidx, hlen⟩)]
    rw [hword]
    simp only
    rw [hseg]
    rfl
  have hloop := Mvp.loop_phase env 0 index seg t hplayer ht (env.loops - 1) 0
    (by omega)
  have hlast := Mvp.fire_exhaust env 0 t
    (Mvp.loopState 0 index seg (env.loops - 1))
    { id := 0, index := index, seg := seg }
    { idx := index, loop := env.loops - 1 }
    (by simp [Mvp.loopState, List.find?]) rfl hplayer ht
    (by show env.loops ≤ env.loops - 1 + 1; omega)
  refine ⟨hplay, ?_, ?_, hlast⟩
  · simpa using hloop
  · rw [List.count_append, Mvp.count_play_flatten]
    rw [List.count_cons_of_ne (by simp), List.count_cons_of_ne (by simp),
        List.count_cons_self, List.count_nil]
    omega

/-- Witness for C3: `envTwo` (loop budget 2), target index 0 resolving to the
segment of "a", each tick at `t = 10 ≥ 2`. -/
theorem claim_C3_witness :
    1 ≤ Mvp.envTwo.loops
    ∧ Mvp.envTwo.player = true
    ∧ (0:Int) ≤ 0
    ∧ (0:Int) < (Mvp.envTwo.selectedWords.length : Int)
    ∧ Mvp.envTwo.selectedWords[(0:Int).toNat]? = some "a"
    ∧ Mvp.envTwo.segments.find? (fun sg => sg.word == "a")
        = some { word := "a", start := 0, «end» := 2 }
    ∧ ({ word := "a", start := 0, «end» := 2 } : Mvp.Segment).«end» ≤ (10:ℚ)
    ∧ Mvp.loopExactness Mvp.envTwo 0 { word := "a", start := 0, «end» := 2 } 10 :=
  ⟨by decide, rfl, by decide, by decide, by decide, by decide, by decide,
   claim_C3 Mvp.envTwo 0 "a" { word := "a", start := 0, «end» := 2 } 10
     (by decide) rfl (by decide) (by decide) (by decide) (by decide) (by decide)⟩

/-- Evaluation of the builder on a sorted two-marker list. -/
theorem makeSegments_pair (a b : WordRow) (w : ℚ) (hab : a.t ≤ b.t) :
    makeSegments [a, b] w
      = [Segment.mk a.t (max a.t (b.t - 1/20)) a.word a.level,
         Segment.mk b.t (b.t + max (3/10) w) b.word b.level] := by
  have hs : sortedByT [a, b] = [a, b] :=
    List.mergeSort_of_sorted (by simp [hab])
  simp [makeSegments, hs, List.enum, List.enumFrom]

/-- The function `playSequenceFrom` never reads the live `words` state: it acts the same
on a state whose `words` were replaced, and carries the replacement along. -/
theorem playSequenceFrom_words (visible : List Segment) (index : Int)
    (s : AppState) (W : List WordRow) :
    playSequenceFrom visible index { s with words := W }
      = ({ (playSequenceFrom visible index s).1 with words := W },
         (playSequenceFrom visible index s).2) := by
  obtain ⟨sw, so, swin, scur, spoll, stim, snid, spl⟩ := s
  simp only [playSequenceFrom]
  repeat' split
  all_goals rfl

/-- The poll tick never reads the live `words` state either. -/
theorem appFire_words (tid : Nat) (t : ℚ) (s : AppState) (W : List WordRow) :
    appFire tid t { s with words := W }
      = ({ (appFire tid t s).1 with words := W }, (appFire tid t s).2) := by
  obtain ⟨sw, so, swin, scur, spoll, stim, snid, spl⟩ := s
  simp only [appFire]
  repeat' split
  all_goals first
    | rfl
    | exact playSequenceFrom_words _ _
        (AppState.mk sw so swin _ none (clearIntervalApp spoll stim) snid spl) W

/-- C4 (amended): toggling a marker level never touches the scheduler
cells (`currentRef`, `pollingRef`, the armed interval), so the in-flight loop
is not interrupted or restarted; and the poll tick — including the advance it
may trigger — behaves identically on the toggled and untoggled states,
because the advance target is looked up in the `visibleSegments` list
captured by the closure when playback started, never recomputed from the
live marker list. -/
theorem claim_C4 :
    (∀ (st : ℚ) (s : AppState),
      (toggleKnownByStart st s).current = s.current
      ∧ (toggleKnownByStart st s).pollingRef = s.pollingRef
      ∧ (toggleKnownByStart st s).timers = s.timers
      ∧ (toggleKnownByStart st s).nextId = s.nextId)
    ∧ (∀ (st : ℚ) (tid : Nat) (t : ℚ) (s : AppState),
      appFire tid t (toggleKnownByStart st s)
        = ({ (appFire tid t s).1 with
              words := toggleKnownByStartWords st s.words },
           (appFire tid t s).2)) := by
  constructor
  · intro st s
    exact ⟨rfl, rfl, rfl, rfl⟩
  · intro st tid t s
    exact appFire_words tid t s (toggleKnownByStartWords st s.words)

/-- Counterexample to C4 as stated: start on "a" of `appDemo`, toggle "b"
(`t = 5`) to known mid-loop, then let the tick complete.  The live filtered
list now contains only the segment of "a", yet the advance plays "b"
(`seekTo 5`): the next segment comes from the closure-captured list, not
from the filtered list recomputed at the advance instant. -/
theorem claim_C4_counterexample :
    (appFire 0 100 (toggleKnownByStart 5
        (playSequenceFrom (visibleSegments appDemo) 0 appDemo).1)).2
      = [Cmd.setRate 1, Cmd.seekTo 5, Cmd.playVideo]
    ∧ visibleSegments (toggleKnownByStart 5
        (playSequenceFrom (visibleSegments appDemo) 0 appDemo).1)
      = [Segment.mk 0 (99/20) "a" 0] := by
  have h1 : max (0:ℚ) (5 - 20⁻¹) = 99/20 := by
    rw [max_eq_right (by norm_num)]; norm_num
  have h2 : (5:ℚ) + max (3/10) 2 = 7 := by
    rw [max_eq_right (by norm_num)]; norm_num
  have hA : visibleSegments appDemo
      = [Segment.mk 0 (99/20) "a" 0, Segment.mk 5 7 "b" 0] := by
    simp [visibleSegments, appDemo,
      makeSegments_pair ⟨0, "a", 0⟩ ⟨5, "b", 0⟩ 2 (by norm_num), h1, h2]
  have hs1 : (playSequenceFrom (visibleSegments appDemo) 0 appDemo).1
      = AppState.mk [⟨0, "a", 0⟩, ⟨5, "b", 0⟩] true 2 (some 0) (some 0)
          [AppTimer.mk 0 [Segment.mk 0 (99/20) "a" 0, Segment.mk 5 7 "b" 0] 0
            (Segment.mk 0 (99/20) "a" 0)]
          1 true := by
    rw [hA]
    norm_num [playSequenceFrom, appDemo, clearIntervalApp]
  have hs2 : toggleKnownByStart 5
      (playSequenceFrom (visibleSegments appDemo) 0 appDemo).1
      = AppState.mk [⟨0, "a", 0⟩, ⟨5, "b", 1⟩] true 2 (some 0) (some 0)
          [AppTimer.mk 0 [Segment.mk 0 (99/20) "a" 0, Segment.mk 5 7 "b" 0] 0
            (Segment.mk 0 (99/20) "a" 0)]
          1 true := by
    rw [hs1]
    norm_num [toggleKnownByStart, toggleKnownByStartWords]
  constructor
  · rw [hs2]
    norm_num [appFire, playSequenceFrom, clearIntervalApp, List.find?]
  · rw [hs2]
    simp [visibleSegments,
      makeSegments_pair ⟨0, "a", 0⟩ ⟨5, "b", 1⟩ 2 (by norm_num), h1, h2]
